import Mathlib

/-!
Verification of the `throttle` rate-limiting middleware (fixed-window counter).

Shallow embedding conventions:
* Go `time.Time` instants and `time.Duration` spans are both modelled as
  integers counting nanoseconds (`Int`); `time.Now()` becomes an explicit
  `now : Int` argument threaded through every operation that consults the
  clock.
* Go `uint64` values are modelled as `Nat` with an explicit `% 2 ^ 64`
  wherever Go arithmetic can wrap (increment, subtraction); `int64` values
  are `Int`.
* The key-value store (`KeyValueStorer`) as used by the controller is a map
  from keys to well-typed serialized counters; a `Get` miss is `none`.
* `json.Marshal`/decode of an `accessCount` is modelled at nanosecond
  precision: `time.Time` marshals as an RFC3339 string with nanosecond
  precision and `time.Duration` as an integer nanosecond count, so at this
  granularity the wire form determines the fields exactly.
-/

namespace ThrottleModel

/-- `2 ^ 64`, the modulus of Go `uint64` arithmetic. -/
def u64Mod : Nat := 2 ^ 64

/-- Go struct `accessCount` (throttle.go): `Count uint64`, `Start time.Time`,
`Duration time.Duration`.  `Count` is a `uint64` value (< 2 ^ 64); `Start`
and `Duration` are nanosecond counts. -/
structure accessCount where
  Count : Nat
  Start : Int
  Duration : Int
deriving DecidableEq

/-- `accessCount.IsFresh`: `time.Now().UTC().Sub(r.Start) < r.Duration`. -/
def accessCount.IsFresh (r : accessCount) (now : Int) : Bool :=
  now - r.Start < r.Duration

/-- `accessCount.Increment`: increment the count when fresh, or reset and
then increment when stale.  `r.Count++` is Go `uint64` arithmetic, hence the
`% 2 ^ 64`. -/
def accessCount.Increment (r : accessCount) (now : Int) : accessCount :=
  if r.IsFresh now then
    { r with Count := (r.Count + 1) % u64Mod }
  else
    { r with Count := 1, Start := now }

/-- `accessCount.GetCount`: the stored count when fresh, else 0. -/
def accessCount.GetCount (r : accessCount) (now : Int) : Nat :=
  if r.IsFresh now then r.Count else 0

/-- `newAccessCount`: a zero count starting now with the given duration. -/
def newAccessCount (duration : Int) (now : Int) : accessCount :=
  { Count := 0, Start := now, Duration := duration }

/-- The JSON wire form of an `accessCount` produced by `json.Marshal`:
an object with keys `"count"` (number), `"start"` (RFC3339 timestamp,
nanosecond precision) and `"duration"` (nanosecond count), per the struct
tags on `accessCount`. -/
structure EncodedAccessCount where
  count : Nat
  start : Int
  duration : Int
deriving DecidableEq

/-- `json.Marshal` of an `accessCount` (the serialization used by
`controller.SetAccessCount`). -/
def marshalAccessCount (a : accessCount) : EncodedAccessCount :=
  { count := a.Count, start := a.Start, duration := a.Duration }

/-- `accessCountFromBytes`: `json.Decoder.Decode` of the wire form into an
`accessCount`; the decoder populates each struct field from the JSON key
named by its tag. -/
def accessCountFromBytes (e : EncodedAccessCount) : accessCount :=
  { Count := e.count, Start := e.start, Duration := e.duration }

/-- Go conversion `uint64 → int64` (two's-complement reinterpretation),
used by `Quota.KeyId` on the limit. -/
def uint64ToInt64 (n : Nat) : Int :=
  if n % u64Mod < 2 ^ 63 then ((n % u64Mod : Nat) : Int)
  else ((n % u64Mod : Nat) : Int) - 2 ^ 64

/-- The `Quota` policy descriptor: `Limit uint64`, `Within time.Duration`. -/
structure Quota where
  Limit : Nat
  Within : Int
deriving DecidableEq

/-- `Quota.KeyId`: `strconv.FormatInt(int64(q.Within)/int64(q.Limit), 10)`.
Go `/` on `int64` truncates toward zero (`Int.tdiv`); `FormatInt _ 10`
prints the decimal form, which is `Int.repr`. -/
def Quota.KeyId (q : Quota) : String :=
  Int.repr (Int.tdiv q.Within (uint64ToInt64 q.Limit))

/-- `makeKey`: `strings.Join(parts, "_")`. -/
def makeKey (parts : List String) : String :=
  String.intercalate "_" parts

/-- The numeric value of a decimal digit character (used to read back the
decimal strings produced by `Nat.repr`, i.e. by `strconv.FormatInt`). -/
def digitVal (c : Char) : Nat := c.toNat - 48

/-- The number denoted by a decimal digit string, most significant digit
first. -/
def digitsToNat (l : List Char) : Nat :=
  l.foldl (fun acc c => acc * 10 + digitVal c) 0

/-- The state of a `KeyValueStorer` as the controller uses it: every value
ever written by the controller is a marshalled `accessCount`, so the byte
payloads are modelled by their decoded wire form.  `none` is a `Get` miss
(the store's key-does-not-exist error). -/
def Store : Type := String → Option EncodedAccessCount

/-- `controller.GetAccessCount`: on a store hit decode the payload, on a
miss (the store returned an error) synthesize a fresh zero counter over the
quota's window.  The miss is absorbed here; no error reaches the caller. -/
def GetAccessCount (q : Quota) (st : Store) (id : String) (now : Int) :
    accessCount :=
  match st id with
  | some bs => accessCountFromBytes bs
  | none => newAccessCount q.Within now

/-- `controller.SetAccessCount`: marshal and write to the store. -/
def SetAccessCount (st : Store) (id : String) (a : accessCount) : Store :=
  fun k => if k = id then some (marshalAccessCount a) else st k

/-- `controller.RegisterAccess`: read, increment, write back (the body of
the mutex-protected critical section). -/
def RegisterAccess (q : Quota) (st : Store) (id : String) (now : Int) :
    Store :=
  SetAccessCount st id ((GetAccessCount q st id now).Increment now)

/-- `controller.DeniesAccess`: `counter.GetCount() >= c.quota.Limit`. -/
def DeniesAccess (q : Quota) (st : Store) (id : String) (now : Int) : Bool :=
  decide (q.Limit ≤ (GetAccessCount q st id now).GetCount now)

/-- `controller.RetryAt`: `counter.Start.Add(c.quota.Within)`. -/
def RetryAt (q : Quota) (st : Store) (id : String) (now : Int) : Int :=
  (GetAccessCount q st id now).Start + q.Within

/-- `controller.RemainingLimit`: `c.quota.Limit - counter.GetCount()`, a
Go `uint64` subtraction, which wraps modulo `2 ^ 64` (for operands below
`2 ^ 64` the Go result is `(Limit + 2 ^ 64 - GetCount) % 2 ^ 64`). -/
def RemainingLimit (q : Quota) (st : Store) (id : String) (now : Int) : Nat :=
  (q.Limit + u64Mod - (GetAccessCount q st id now).GetCount now) % u64Mod

/-! ### MapStore (mapstore.go)

`MapStore` holds raw byte payloads; as used by the throttle these are the
marshalled counters, so payloads are modelled by their decoded wire form.
The binding passed to `NewMapStore` is `accessCount{}`, an `accessCount`
value boxed in the `FreshnessInformer` interface. -/

/-- The map store: an association list of entries plus the freshness
binding given to `NewMapStore`. -/
structure MapStore where
  data : List (String × EncodedAccessCount)
  binding : accessCount
deriving DecidableEq

/-- `MapStore.Delete`: remove the entry for `key` if present. -/
def MapStore.Delete (s : MapStore) (key : String) : MapStore :=
  { s with data := s.data.filter (fun kv => kv.1 ≠ key) }

/-- The Go field names of the binding struct `accessCount`, as seen by
`reflect.Value.FieldByName` (Go field names are case-sensitive and
capitalized). -/
def accessCountGoFields : List String := ["Count", "Start", "Duration"]

/-- The keys of the JSON object stored for an entry, as produced by
`json.Marshal` from the struct tags (lowercase). -/
def encodedJsonKeys : List String := ["count", "start", "duration"]

/-- `reflect.ValueOf(s.binding).FieldByName(k).CanSet()`: the binding is a
struct value boxed in an interface, so the reflected value is not
addressable and `CanSet` is `false` for every field. -/
def bindingFieldCanSet : Bool := false

/-- The field-population loop of `MapStore.Read`: for each decoded JSON
key, if `FieldByName` finds a field and it is settable, assign the decoded
value.  Decoded JSON values have dynamic type `float64`/`string`, so a
`reflect.Value.Set` into a `uint64`/`time.Time` field would panic
(modelled `none`); with a value binding the branch is unreachable anyway
because `CanSet` is `false`, and the lowercase JSON keys match no Go field
name in any case. -/
def readPopulate (binding : accessCount) : List String → Option accessCount
  | [] => some binding
  | k :: ks =>
    if accessCountGoFields.contains k && bindingFieldCanSet then none
    else readPopulate binding ks

/-- `MapStore.Read`: `Get` the payload (an error when the key is absent,
modelled `none`), decode it into a generic JSON map, then run the
reflection loop over the binding and return the binding. -/
def MapStore.Read (s : MapStore) (key : String) : Option accessCount :=
  match s.data.lookup key with
  | none => none
  | some _ => readPopulate s.binding encodedJsonKeys

/-- One iteration of `MapStore.Clean`'s loop at key `key`: on a successful
`Read`, delete the entry when the returned value is not fresh; a `Read`
error panics (modelled `none`). -/
def cleanStep (now : Int) (s : Option MapStore) (key : String) :
    Option MapStore :=
  match s with
  | none => none
  | some st =>
    match st.Read key with
    | some v => if v.IsFresh now then some st else some (st.Delete key)
    | none => none

/-- `MapStore.Clean`: sweep every key of the store, deleting the entries
whose `Read` value is not fresh. -/
def MapStore.Clean (s : MapStore) (now : Int) : Option MapStore :=
  (s.data.map Prod.fst).foldl (cleanStep now) (some s)

/-- The store after `n` sequential `RegisterAccess` calls for `id`, the
`i`-th call (0-based) executing at time `t i`.  Since the controller's
mutex serializes the read-increment-write cycles, any concurrent execution
of these calls is equivalent to this sequential composition in some order,
and the order is arbitrary because `t` is arbitrary. -/
def registerTimes (q : Quota) (id : String) (t : Nat → Int) (st : Store) :
    Nat → Store
  | 0 => st
  | n + 1 => RegisterAccess q (registerTimes q id t st n) id (t n)

/-- Sequential composition of one `RegisterAccess` per element of `ts`
(each element is the time of that call). -/
def registerList (q : Quota) (id : String) (ts : List Int) (st : Store) :
    Store :=
  ts.foldl (fun s time => RegisterAccess q s id time) st

/-! ### Basic store and register lemmas -/

theorem setAccessCount_self (st : Store) (id : String) (a : accessCount) :
    SetAccessCount st id a id = some (marshalAccessCount a) := by
  simp [SetAccessCount]

theorem registerAccess_hit (q : Quota) (st : Store) (id : String) (now : Int)
    (e : EncodedAccessCount) (h : st id = some e)
    (hfresh : now - e.start < e.duration) :
    RegisterAccess q st id now =
      SetAccessCount st id ⟨(e.count + 1) % u64Mod, e.start, e.duration⟩ := by
  unfold RegisterAccess GetAccessCount
  rw [h]
  simp [accessCount.Increment, accessCount.IsFresh, accessCountFromBytes,
    hfresh]

theorem registerAccess_miss (q : Quota) (st : Store) (id : String)
    (now : Int) (h : st id = none) (hW : 0 < q.Within) :
    RegisterAccess q st id now =
      SetAccessCount st id ⟨1 % u64Mod, now, q.Within⟩ := by
  unfold RegisterAccess GetAccessCount
  rw [h]
  simp [accessCount.Increment, accessCount.IsFresh, newAccessCount, hW]

theorem registerList_count (q : Quota) (id : String) :
    ∀ (ts : List Int) (st : Store) (e : EncodedAccessCount),
      st id = some e →
      (∀ time ∈ ts, time - e.start < e.duration) →
      e.count + ts.length < u64Mod →
      registerList q id ts st id =
        some ⟨e.count + ts.length, e.start, e.duration⟩ := by
  intro ts
  induction ts with
  | nil =>
    intro st e hhit _ _
    simpa [registerList] using hhit
  | cons time ts ih =>
    intro st e hhit hfresh hcnt
    have hstep := registerAccess_hit q st id time e hhit
      (hfresh time (by simp))
    have hmod : (e.count + 1) % u64Mod = e.count + 1 :=
      Nat.mod_eq_of_lt (by simp [List.length] at hcnt; omega)
    have hrec := ih (SetAccessCount st id
        ⟨(e.count + 1) % u64Mod, e.start, e.duration⟩)
      ⟨(e.count + 1) % u64Mod, e.start, e.duration⟩
      (setAccessCount_self ..)
      (by intro x hx; exact hfresh x (by simp [hx]))
      (by simp [hmod]; simp [List.length] at hcnt; omega)
    calc registerList q id (time :: ts) st id
        = registerList q id ts (RegisterAccess q st id time) id := by
          simp [registerList]
      _ = some ⟨e.count + (time :: ts).length, e.start, e.duration⟩ := by
          rw [hstep, hrec, hmod]
          simp [List.length]
          omega

theorem registerTimes_miss (q : Quota) (id : String) (t : Nat → Int)
    (st : Store) (hmiss : st id = none) (hW : 0 < q.Within) :
    ∀ n, 1 ≤ n → n < u64Mod →
      (∀ i, i < n → 0 ≤ t i - t 0 ∧ t i - t 0 < q.Within) →
      registerTimes q id t st n id = some ⟨n, t 0, q.Within⟩ := by
  intro n
  induction n with
  | zero => omega
  | succ m ih =>
    intro _ hlt ht
    by_cases hm : m = 0
    · subst hm
      show RegisterAccess q (registerTimes q id t st 0) id (t 0) id =
        some ⟨1, t 0, q.Within⟩
      rw [show registerTimes q id t st 0 = st from rfl,
        registerAccess_miss q st id (t 0) hmiss hW]
      rw [setAccessCount_self]
      simp [marshalAccessCount, u64Mod]
    · have hmem := ih (by omega) (by omega)
        (by intro i hi; exact ht i (by omega))
      show RegisterAccess q (registerTimes q id t st m) id (t m) id =
        some ⟨m + 1, t 0, q.Within⟩
      rw [registerAccess_hit q _ id (t m) ⟨m, t 0, q.Within⟩ hmem
        (ht m (by omega)).2]
      rw [setAccessCount_self]
      congr 1
      simp [marshalAccessCount]
      exact Nat.mod_eq_of_lt (by omega)

/-! ### Decimal representation lemmas

`Quota.KeyId` goes through `strconv.FormatInt(_, 10)`, modelled by
`Int.repr`; deciding when two key-ids coincide needs injectivity of the
decimal representation of a natural number, proved by reading the digit
string back. -/

theorem toDigitsCore_append (fuel : Nat) :
    ∀ (n : Nat) (ds : List Char),
      Nat.toDigitsCore 10 fuel n ds = Nat.toDigitsCore 10 fuel n [] ++ ds := by
  induction fuel with
  | zero =>
    intro n ds
    simp [Nat.toDigitsCore]
  | succ f ih =>
    intro n ds
    simp only [Nat.toDigitsCore]
    by_cases h : n / 10 = 0
    · simp [h]
    · simp only [h, if_false]
      rw [ih (n / 10) (Nat.digitChar (n % 10) :: ds),
        ih (n / 10) [Nat.digitChar (n % 10)]]
      simp

theorem toDigitsCore_fuel (n : Nat) :
    ∀ f1 f2 (ds : List Char), n < f1 → n < f2 →
      Nat.toDigitsCore 10 f1 n ds = Nat.toDigitsCore 10 f2 n ds := by
  induction n using Nat.strong_induction_on with
  | _ n ih =>
    intro f1 f2 ds h1 h2
    match f1, f2 with
    | a + 1, b + 1 =>
      simp only [Nat.toDigitsCore]
      by_cases h : n / 10 = 0
      · simp [h]
      · simp only [h, if_false]
        have hpos : 0 < n := by
          rcases Nat.eq_zero_or_pos n with h0 | h0
          · subst h0
            simp at h
          · exact h0
        have hlt : n / 10 < n := Nat.div_lt_self hpos (by omega)
        exact ih (n / 10) hlt a b _ (by omega) (by omega)

theorem digitVal_digitChar : ∀ m, m < 10 → digitVal (Nat.digitChar m) = m := by
  decide

theorem digitsToNat_append_one (xs : List Char) (c : Char) :
    digitsToNat (xs ++ [c]) = digitsToNat xs * 10 + digitVal c := by
  simp [digitsToNat, List.foldl_append]

theorem digitsToNat_toDigits (n : Nat) :
    digitsToNat (Nat.toDigits 10 n) = n := by
  induction n using Nat.strong_induction_on with
  | _ n ih =>
    unfold Nat.toDigits
    simp only [Nat.toDigitsCore]
    by_cases h : n / 10 = 0
    · simp only [h, if_true]
      have h10 : n < 10 := by omega
      have hmod : n % 10 = n := by omega
      rw [hmod]
      simp [digitsToNat, digitVal_digitChar n h10]
    · simp only [h, if_false]
      have hpos : 0 < n := by
        rcases Nat.eq_zero_or_pos n with h0 | h0
        · subst h0
          simp at h
        · exact h0
      have hlt : n / 10 < n := Nat.div_lt_self hpos (by omega)
      rw [toDigitsCore_fuel (n / 10) n (n / 10 + 1) _ (by omega) (by omega)]
      rw [toDigitsCore_append (n / 10 + 1) (n / 10) [Nat.digitChar (n % 10)]]
      rw [show Nat.toDigitsCore 10 (n / 10 + 1) (n / 10) [] =
        Nat.toDigits 10 (n / 10) from rfl]
      rw [digitsToNat_append_one, ih (n / 10) hlt,
        digitVal_digitChar (n % 10) (by omega)]
      omega

theorem natRepr_injective (m n : Nat) (h : Nat.repr m = Nat.repr n) :
    m = n := by
  have hd : Nat.toDigits 10 m = Nat.toDigits 10 n := by
    have h2 := congrArg String.data h
    simpa [Nat.repr, List.asString] using h2
  have h3 := congrArg digitsToNat hd
  rwa [digitsToNat_toDigits, digitsToNat_toDigits] at h3

theorem toDigitsCore_mem (fuel : Nat) :
    ∀ (n : Nat) (ds : List Char) (c : Char),
      c ∈ Nat.toDigitsCore 10 fuel n ds →
        c ∈ ds ∨ ∃ m, m < 10 ∧ c = Nat.digitChar m := by
  induction fuel with
  | zero =>
    intro n ds c hc
    exact Or.inl (by simpa [Nat.toDigitsCore] using hc)
  | succ f ih =>
    intro n ds c hc
    simp only [Nat.toDigitsCore] at hc
    by_cases h : n / 10 = 0
    · rw [if_pos h] at hc
      rcases List.mem_cons.mp hc with h1 | h1
      · exact Or.inr ⟨n % 10, by omega, h1⟩
      · exact Or.inl h1
    · rw [if_neg h] at hc
      rcases ih (n / 10) (Nat.digitChar (n % 10) :: ds) c hc with h1 | h1
      · rcases List.mem_cons.mp h1 with h2 | h2
        · exact Or.inr ⟨n % 10, by omega, h2⟩
        · exact Or.inl h2
      · exact Or.inr h1

theorem natRepr_no_underscore (n : Nat) : '_' ∉ (Nat.repr n).data := by
  intro hc
  have h2 : '_' ∈ Nat.toDigits 10 n := by
    simpa [Nat.repr, List.asString] using hc
  rcases toDigitsCore_mem (n + 1) n [] _ h2 with h3 | ⟨m, hm, he⟩
  · simp at h3
  · have hall : ∀ m, m < 10 → Nat.digitChar m ≠ '_' := by decide
    exact hall m hm he.symm

theorem append_sep_inj (sep : Char) :
    ∀ (a b c d : List Char), sep ∉ a → sep ∉ b →
      a ++ sep :: c = b ++ sep :: d → a = b ∧ c = d := by
  intro a
  induction a with
  | nil =>
    intro b c d _ hb h
    cases b with
    | nil => simpa using h
    | cons y ys =>
      simp only [List.nil_append, List.cons_append, List.cons.injEq] at h
      exact absurd (by rw [h.1]; exact List.mem_cons_self y ys) hb
  | cons x xs ih =>
    intro b c d ha hb h
    cases b with
    | nil =>
      simp only [List.cons_append, List.nil_append, List.cons.injEq] at h
      exact absurd (by rw [← h.1]; exact List.mem_cons_self x xs) ha
    | cons y ys =>
      simp only [List.cons_append, List.cons.injEq] at h
      obtain ⟨hxy, h2⟩ := h
      have hrec := ih ys c d (fun hm => ha (List.mem_cons_of_mem x hm))
        (fun hm => hb (List.mem_cons_of_mem y hm)) h2
      exact ⟨by rw [hxy, hrec.1], hrec.2⟩

theorem uint64ToInt64_small (n : Nat) (h : n < 2 ^ 63) :
    uint64ToInt64 n = (n : Int) := by
  unfold uint64ToInt64 u64Mod
  have h64 : n % 2 ^ 64 = n := Nat.mod_eq_of_lt (by omega)
  rw [h64, if_pos h]

/-- Normal form of `KeyId` for a quota with `0 < limit < 2 ^ 63` and a
positive window: the decimal representation of the natural quotient. -/
theorem keyId_repr (q : Quota) (_hL : 0 < q.Limit) (hL' : q.Limit < 2 ^ 63)
    (hW : 0 < q.Within) :
    q.KeyId = Nat.repr (q.Within.toNat / q.Limit) ∧
    Int.tdiv q.Within (uint64ToInt64 q.Limit) =
      Int.ofNat (q.Within.toNat / q.Limit) := by
  obtain ⟨w, hw⟩ : ∃ w : Nat, q.Within = Int.ofNat w :=
    ⟨q.Within.toNat, (Int.toNat_of_nonneg (by omega)).symm⟩
  have htd : Int.tdiv q.Within (uint64ToInt64 q.Limit) =
      Int.ofNat (q.Within.toNat / q.Limit) := by
    rw [uint64ToInt64_small q.Limit hL', hw]
    rfl
  refine ⟨?_, htd⟩
  unfold Quota.KeyId
  rw [htd]
  rfl

/-! ### Claim theorems -/

/-- C1 (counterexample): with `limit = 1`, `window = 10`, a fresh identity
and a single `RegisterAccess` at time 0, `DeniesAccess` immediately after
is already `true`, contradicting the claim that each of the first
`L` calls leaves it `false`. -/
theorem C1_counterexample :
    DeniesAccess ⟨1, 10⟩ (RegisterAccess ⟨1, 10⟩ (fun _ => none) "id" 0)
      "id" 0 = true := by
  decide

/-- C1 (amended): for a fresh identity under quota `{limit = L, window = W}`
with `L > 0`, `W > 0`, after the `k`-th of `L + 1` sequential
`RegisterAccess` calls all within `W` of the first, `DeniesAccess` equals
`decide (L ≤ k)`: it is `false` after each of the first `L - 1` calls and
`true` after the `L`-th and the `(L + 1)`-th. -/
theorem C1_amended_denial_threshold (q : Quota) (st : Store) (id : String)
    (t : Nat → Int) (hmiss : st id = none) (hW : 0 < q.Within)
    (_hL : 0 < q.Limit) (hL64 : q.Limit + 1 < u64Mod)
    (ht : ∀ i, i < q.Limit + 1 → 0 ≤ t i - t 0 ∧ t i - t 0 < q.Within) :
    ∀ k, 1 ≤ k → k ≤ q.Limit + 1 →
      DeniesAccess q (registerTimes q id t st k) id (t (k - 1)) =
        decide (q.Limit ≤ k) := by
  intro k hk1 hk2
  have hstate := registerTimes_miss q id t st hmiss hW k hk1 (by omega)
    (by intro i hi; exact ht i (by omega))
  have hfreshk : t (k - 1) - t 0 < q.Within := (ht (k - 1) (by omega)).2
  unfold DeniesAccess GetAccessCount
  rw [hstate]
  simp [accessCountFromBytes, accessCount.GetCount, accessCount.IsFresh,
    hfreshk]

theorem C1_witness :
    DeniesAccess ⟨2, 10⟩
        (registerTimes ⟨2, 10⟩ "id" (fun _ => 0) (fun _ => none) 3) "id"
        ((fun _ => (0 : Int)) (3 - 1)) = decide ((2 : Nat) ≤ 3) :=
  C1_amended_denial_threshold ⟨2, 10⟩ (fun _ => none) "id" (fun _ => 0)
    rfl (by decide) (by decide) (by decide) (by decide) 3 (by decide)
    (by decide)

/-- C3 (counterexample): the distinct quotas `{Limit := 3, Within := 10}`
and `{Limit := 3, Within := 11}` have the same key-id (`KeyId` truncates
`window / limit` to an integer: both quotients truncate to 3), and hence
the same composed store key for the same identity — the two policies do
read and write the same store entry. -/
theorem C3_counterexample :
    (⟨3, 10⟩ : Quota) ≠ ⟨3, 11⟩ ∧
    Quota.KeyId ⟨3, 10⟩ = Quota.KeyId ⟨3, 11⟩ ∧
    makeKey ["throttle", Quota.KeyId ⟨3, 10⟩, "1.2.3.4"] =
      makeKey ["throttle", Quota.KeyId ⟨3, 11⟩, "1.2.3.4"] := by
  decide

/-- C3 (amended): for quotas with `0 < limit < 2 ^ 63` and positive
window sharing one store, the derived key-ids are equal exactly when the
truncated quotients `window / limit` are equal; when the quotients differ
the key-ids differ and the composed store keys for one identity differ,
so only quotas with equal truncated quotient can collide. -/
theorem C3_amended_keyId_collision (q1 q2 : Quota) (p idn : String)
    (h1 : 0 < q1.Limit) (h1' : q1.Limit < 2 ^ 63) (hw1 : 0 < q1.Within)
    (h2 : 0 < q2.Limit) (h2' : q2.Limit < 2 ^ 63) (hw2 : 0 < q2.Within) :
    (q1.KeyId = q2.KeyId ↔
      Int.tdiv q1.Within (uint64ToInt64 q1.Limit) =
        Int.tdiv q2.Within (uint64ToInt64 q2.Limit)) ∧
    (Int.tdiv q1.Within (uint64ToInt64 q1.Limit) ≠
        Int.tdiv q2.Within (uint64ToInt64 q2.Limit) →
      makeKey [p, q1.KeyId, idn] ≠ makeKey [p, q2.KeyId, idn]) := by
  obtain ⟨hk1, ht1⟩ := keyId_repr q1 h1 h1' hw1
  obtain ⟨hk2, ht2⟩ := keyId_repr q2 h2 h2' hw2
  have hiff : q1.KeyId = q2.KeyId ↔
      Int.tdiv q1.Within (uint64ToInt64 q1.Limit) =
        Int.tdiv q2.Within (uint64ToInt64 q2.Limit) := by
    rw [hk1, hk2, ht1, ht2]
    constructor
    · intro h
      rw [natRepr_injective _ _ h]
    · intro h
      rw [Int.ofNat_inj.mp h]
  refine ⟨hiff, ?_⟩
  intro hne heq
  apply hne
  apply hiff.mp
  have hdata := congrArg String.data heq
  have hshape : ∀ k i : String,
      (makeKey [p, k, i]).data = p.data ++ '_' :: (k.data ++ '_' :: i.data) := by
    intro k i
    show ((((p ++ "_") ++ k) ++ "_") ++ i).data = _
    simp
  rw [hshape, hshape] at hdata
  have hmid := List.append_cancel_left hdata
  have hmid2 : q1.KeyId.data ++ '_' :: idn.data =
      q2.KeyId.data ++ '_' :: idn.data := by
    simpa using hmid
  have hnu1 : '_' ∉ q1.KeyId.data := by
    rw [hk1]
    exact natRepr_no_underscore _
  have hnu2 : '_' ∉ q2.KeyId.data := by
    rw [hk2]
    exact natRepr_no_underscore _
  have hsplit := append_sep_inj '_' q1.KeyId.data q2.KeyId.data idn.data
    idn.data hnu1 hnu2 hmid2
  ext1
  exact hsplit.1

theorem C3_witness :
    ((⟨1, 5⟩ : Quota).KeyId = (⟨1, 7⟩ : Quota).KeyId ↔
      Int.tdiv (⟨1, 5⟩ : Quota).Within (uint64ToInt64 (⟨1, 5⟩ : Quota).Limit) =
        Int.tdiv (⟨1, 7⟩ : Quota).Within
          (uint64ToInt64 (⟨1, 7⟩ : Quota).Limit)) ∧
    (Int.tdiv (⟨1, 5⟩ : Quota).Within (uint64ToInt64 (⟨1, 5⟩ : Quota).Limit) ≠
        Int.tdiv (⟨1, 7⟩ : Quota).Within
          (uint64ToInt64 (⟨1, 7⟩ : Quota).Limit) →
      makeKey ["throttle", (⟨1, 5⟩ : Quota).KeyId, "1.2.3.4"] ≠
        makeKey ["throttle", (⟨1, 7⟩ : Quota).KeyId, "1.2.3.4"]) :=
  C3_amended_keyId_collision ⟨1, 5⟩ ⟨1, 7⟩ "throttle" "1.2.3.4" (by decide)
    (by decide) (by decide) (by decide) (by decide) (by decide)

/-- C4: `RegisterAccess` calls on one controller are serialized by its
mutex, so any concurrent execution is a sequential composition in some
order; for every call-time list `ts` (every order, every timing inside the
current window) over a stored counter, the stored count afterwards is
exactly `ts.length` higher — one logical increment per call, none lost. -/
theorem C4_concurrent_register_serialized (q : Quota) (st : Store)
    (id : String) (e : EncodedAccessCount) (ts : List Int)
    (hhit : st id = some e)
    (hfresh : ∀ time ∈ ts, time - e.start < e.duration)
    (hcnt : e.count + ts.length < u64Mod) :
    registerList q id ts st id =
      some ⟨e.count + ts.length, e.start, e.duration⟩ :=
  registerList_count q id ts st e hhit hfresh hcnt

theorem C4_witness :
    registerList ⟨5, 100⟩ "id" [1, 2, 3]
        (fun k => if k = "id" then some ⟨0, 0, 100⟩ else none) "id" =
      some ⟨0 + [1, 2, 3].length, 0, 100⟩ :=
  C4_concurrent_register_serialized ⟨5, 100⟩ _ "id" ⟨0, 0, 100⟩ [1, 2, 3]
    rfl (by decide) (by decide)

/-- C5 (counterexample): a fresh counter with `Count = 2 ^ 64 - 1` (the
largest `uint64`) is incremented to `0`, not to `old + 1`: Go `uint64`
increment wraps. -/
theorem C5_counterexample :
    accessCount.IsFresh ⟨u64Mod - 1, 0, 10⟩ 0 = true ∧
    (accessCount.Increment ⟨u64Mod - 1, 0, 10⟩ 0).Count ≠ (u64Mod - 1) + 1 := by
  decide

/-- C5 (amended): for a counter with positive window duration,
`Increment` sets the count to `(old + 1) % 2 ^ 64` (equal to `old + 1`
whenever `old < 2 ^ 64 - 1`) leaving `Start` and `Duration` unchanged when
fresh, and resets to `{Count := 1, Start := now}` when stale; in both
cases the counter is fresh immediately afterward. -/
theorem C5_amended_increment (r : accessCount) (now : Int)
    (hd : 0 < r.Duration) :
    (now - r.Start < r.Duration →
      r.Increment now =
        { Count := (r.Count + 1) % u64Mod, Start := r.Start,
          Duration := r.Duration }) ∧
    (r.Duration ≤ now - r.Start →
      r.Increment now =
        { Count := 1, Start := now, Duration := r.Duration }) ∧
    (r.Increment now).IsFresh now = true := by
  refine ⟨?_, ?_, ?_⟩
  · intro h
    simp [accessCount.Increment, accessCount.IsFresh, h]
  · intro h
    have h2 : ¬ (now - r.Start < r.Duration) := by omega
    simp [accessCount.Increment, accessCount.IsFresh, h2]
  · by_cases h : now - r.Start < r.Duration
    · simp [accessCount.Increment, accessCount.IsFresh, h]
    · simp [accessCount.Increment, accessCount.IsFresh, h]
      omega

theorem C5_witness :
    (0 : Int) < 10 ∧
    (accessCount.Increment ⟨0, 0, 10⟩ 0).IsFresh 0 = true :=
  ⟨by decide, (C5_amended_increment ⟨0, 0, 10⟩ 0 (by decide)).2.2⟩

/-- C6: on a store miss `GetAccessCount` synthesizes a counter with
`Count = 0`, `Start = now` and `Duration` equal to the quota's window;
the miss produces a counter, not an error. -/
theorem C6_miss_synthesizes_fresh_zero (q : Quota) (st : Store)
    (id : String) (now : Int) (hmiss : st id = none) :
    GetAccessCount q st id now =
      { Count := 0, Start := now, Duration := q.Within } := by
  simp [GetAccessCount, hmiss, newAccessCount]

theorem C6_witness :
    GetAccessCount ⟨5, 100⟩ (fun _ => none) "id" 7 =
      { Count := 0, Start := 7, Duration := 100 } :=
  C6_miss_synthesizes_fresh_zero ⟨5, 100⟩ (fun _ => none) "id" 7 rfl

/-- C7: deserializing the serialization of any `accessCount` reproduces
its `Count`, `Start` (the wire form carries nanosecond precision) and
`Duration`. -/
theorem C7_roundtrip (a : accessCount) :
    accessCountFromBytes (marshalAccessCount a) = a := rfl

/-- C8: `RetryAt` equals the stored counter's `Start` plus the quota's
window, and a `RegisterAccess` performed while the stored counter is
fresh leaves `RetryAt` unchanged. -/
theorem C8_retryAt_stable (q : Quota) (st : Store) (id : String)
    (now : Int) (e : EncodedAccessCount) (hhit : st id = some e) :
    RetryAt q st id now = (accessCountFromBytes e).Start + q.Within ∧
    ((accessCountFromBytes e).IsFresh now = true →
      ∀ now2, RetryAt q (RegisterAccess q st id now) id now2 =
        RetryAt q st id now) := by
  constructor
  · simp [RetryAt, GetAccessCount, hhit]
  · intro hf now2
    have hfresh : now - e.start < e.duration := by
      simpa [accessCountFromBytes, accessCount.IsFresh] using hf
    rw [registerAccess_hit q st id now e hhit hfresh]
    simp [RetryAt, GetAccessCount, SetAccessCount, hhit,
      accessCountFromBytes, marshalAccessCount]

theorem C8_witness :
    RetryAt ⟨5, 100⟩ (fun k => if k = "id" then some ⟨2, 3, 100⟩ else none)
        "id" 4 = (accessCountFromBytes ⟨2, 3, 100⟩).Start + 100 ∧
    RetryAt ⟨5, 100⟩
        (RegisterAccess ⟨5, 100⟩
          (fun k => if k = "id" then some ⟨2, 3, 100⟩ else none) "id" 4)
        "id" 9 =
      RetryAt ⟨5, 100⟩
        (fun k => if k = "id" then some ⟨2, 3, 100⟩ else none) "id" 4 :=
  ⟨(C8_retryAt_stable ⟨5, 100⟩ _ "id" 4 ⟨2, 3, 100⟩ rfl).1,
   (C8_retryAt_stable ⟨5, 100⟩ _ "id" 4 ⟨2, 3, 100⟩ rfl).2 (by decide) 9⟩

/-- C9: `GetCount` returns the stored count when the counter is fresh
(`now - Start < Duration`) and 0 when it is stale; being a pure
observation it leaves the counter's fields unchanged (the source body
performs no assignment). -/
theorem C9_getCount (r : accessCount) (now : Int) :
    (now - r.Start < r.Duration → r.GetCount now = r.Count) ∧
    (r.Duration ≤ now - r.Start → r.GetCount now = 0) := by
  constructor
  · intro h
    simp [accessCount.GetCount, accessCount.IsFresh, h]
  · intro h
    have h2 : ¬ (now - r.Start < r.Duration) := by omega
    simp [accessCount.GetCount, accessCount.IsFresh, h2]

theorem C9_witness :
    ((0 : Int) - 0 < 5 ∧ accessCount.GetCount ⟨3, 0, 5⟩ 0 = 3) ∧
    ((5 : Int) ≤ 9 - 0 ∧ accessCount.GetCount ⟨3, 0, 5⟩ 9 = 0) :=
  ⟨⟨by decide, (C9_getCount ⟨3, 0, 5⟩ 0).1 (by decide)⟩,
   ⟨by decide, (C9_getCount ⟨3, 0, 5⟩ 9).2 (by decide)⟩⟩

/-- C10: when the stored counter is fresh with `count > limit`,
`RemainingLimit` is the Go `uint64` difference `limit - count`, which
wraps to `2 ^ 64 - (count - limit)` — a value near `2 ^ 64`, never zero:
the subtraction does not saturate. -/
theorem C10_remaining_underflow (q : Quota) (st : Store) (id : String)
    (now : Int) (e : EncodedAccessCount) (hhit : st id = some e)
    (hfresh : now - e.start < e.duration)
    (hcnt : e.count < u64Mod) (hlim : q.Limit < e.count) :
    RemainingLimit q st id now = u64Mod - (e.count - q.Limit) ∧
    RemainingLimit q st id now ≠ 0 := by
  have hget : (GetAccessCount q st id now).GetCount now = e.count := by
    simp [GetAccessCount, hhit, accessCountFromBytes, accessCount.GetCount,
      accessCount.IsFresh, hfresh]
  unfold RemainingLimit
  rw [hget]
  have hval : (q.Limit + u64Mod - e.count) % u64Mod =
      u64Mod - (e.count - q.Limit) := by
    have h1 : q.Limit + u64Mod - e.count = u64Mod - (e.count - q.Limit) := by
      omega
    rw [h1]
    exact Nat.mod_eq_of_lt (by omega)
  rw [hval]
  constructor
  · rfl
  · omega

theorem C10_witness :
    RemainingLimit ⟨1, 100⟩
        (fun k => if k = "id" then some ⟨3, 0, 100⟩ else none) "id" 0 =
      u64Mod - (3 - 1) ∧
    RemainingLimit ⟨1, 100⟩
        (fun k => if k = "id" then some ⟨3, 0, 100⟩ else none) "id" 0 ≠ 0 :=
  C10_remaining_underflow ⟨1, 100⟩ _ "id" 0 ⟨3, 0, 100⟩ rfl (by decide)
    (by decide) (by decide)

/-- For any key present in the store, `Read` returns the binding value
unchanged: the lowercase JSON keys of the payload match no Go field name
of `accessCount`, and the reflected binding is not settable anyway, so the
population loop never assigns a field.  The stored payload itself is
ignored. -/
theorem mapStore_read_returns_binding (s : MapStore) (key : String)
    (e : EncodedAccessCount) (h : s.data.lookup key = some e) :
    s.Read key = some s.binding := by
  unfold MapStore.Read
  rw [h]
  rfl

/-- C2 (code bug): a store whose binding is the zero `accessCount{}` (as
constructed by `NewMapStore(accessCount{})` in `newOptions`) holds one
entry whose stored counter `{Count := 1, Start := 0, Duration := 100}` is
fresh at sweep time 0, yet `Clean` deletes it: the sweep evaluates the
freshness of the never-populated binding, not of the stored counter. -/
theorem C2_clean_deletes_fresh_entry :
    (accessCountFromBytes ⟨1, 0, 100⟩).IsFresh 0 = true ∧
    MapStore.Clean ⟨[("k", ⟨1, 0, 100⟩)], ⟨0, 0, 0⟩⟩ 0 =
      some ⟨[], ⟨0, 0, 0⟩⟩ := by
  decide

end ThrottleModel
